import Mathlib

/-!
Verification development for the `mcp-polymarket` MCP server (TypeScript).

The adapter's logic is shallowly embedded in Lean: JavaScript values that
cross the `JSON.parse` / upstream-response boundary are modelled by the
`JSValue` inductive, machine numbers by exact rationals (`ℚ`; the IEEE
special value NaN is modelled as `Option.none` where it can arise),
fallible code by `Except`/`Option`, and each tool handler by a pure
function from its arguments and the outcome of its upstream calls to the
result envelope together with a log of the upstream calls it performed.
-/

/-- A JavaScript/JSON value, as observed by the adapter after `JSON.parse`
or when an upstream field may hold an arbitrary runtime value.
`undef` models JavaScript `undefined` (e.g. a missing object field). -/
inductive JSValue : Type where
  | null : JSValue
  | undef : JSValue
  | bool (b : Bool) : JSValue
  | num (q : ℚ) : JSValue
  | str (s : String) : JSValue
  | arr (elems : List JSValue) : JSValue
  | obj (fields : List (String × JSValue)) : JSValue

/-- JavaScript truthiness of a value.  (IEEE NaN, the one other falsy
number, is not representable in `ℚ` and never arises in the embedded
code paths.) -/
def truthy : JSValue → Bool
  | .null => false
  | .undef => false
  | .bool b => b
  | .num q => q != 0
  | .str s => s != ""
  | .arr _ => true
  | .obj _ => true

/-- JSON whitespace characters (RFC 8259). -/
def isJsonWs (c : Char) : Bool :=
  match c with
  | ' ' => true
  | '\t' => true
  | '\n' => true
  | '\r' => true
  | _ => false

def isDigitChar (c : Char) : Bool := '0' ≤ c && c ≤ '9'

def digitVal (c : Char) : ℕ := c.toNat - '0'.toNat

def digitsToNat (ds : List Char) : ℕ :=
  List.foldl (fun a c => 10 * a + digitVal c) 0 ds

/-- The value of a hexadecimal digit, via character codes (0–9, a–f,
A–F). -/
def hexVal (c : Char) : Option ℕ :=
  let n := c.toNat
  if 48 ≤ n && n ≤ 57 then some (n - 48)
  else if 97 ≤ n && n ≤ 102 then some (n - 87)
  else if 65 ≤ n && n ≤ 70 then some (n - 55)
  else none

/-- The rational `sgn * mant * 10 ^ e / 10 ^ scale`, assembled with
`mkRat` over integer arithmetic only (core's `Rat` add/mul/div are
irreducible, which would block kernel evaluation). -/
def ratOfParts (sgn : ℤ) (mant : ℕ) (scale : ℕ) (e : ℤ) : ℚ :=
  match e with
  | .ofNat k => mkRat (sgn * ((mant * 10 ^ k : ℕ) : ℤ)) (10 ^ scale)
  | .negSucc k => mkRat (sgn * (mant : ℤ)) (10 ^ (scale + (k + 1)))

/-- Parse a JSON number per the RFC 8259 grammar
`-? (0 | [1-9][0-9]*) (. [0-9]+)? ([eE][+-]?[0-9]+)?`, returning the
exact rational value and the remaining input, or `none` on a syntax
error (including the leading-zero and empty-fraction cases that
`JSON.parse` rejects). -/
def parseJsonNumber (cs : List Char) : Option (ℚ × List Char) :=
  let p : ℤ × List Char := match cs with
    | '-' :: r => ((-1 : ℤ), r)
    | _ => ((1 : ℤ), cs)
  let sgn := p.1
  let cs1 := p.2
  let ids := cs1.takeWhile isDigitChar
  let cs2 := cs1.dropWhile isDigitChar
  if ids.isEmpty then none
  else if 1 < ids.length && ids.headD '0' == '0' then none
  else
    let fr : Option (List Char × List Char) := match cs2 with
      | '.' :: r =>
        let fds := r.takeWhile isDigitChar
        if fds.isEmpty then none else some (fds, r.dropWhile isDigitChar)
      | _ => some ([], cs2)
    match fr with
    | none => none
    | some (fds, cs3) =>
      let ex : Option (ℤ × List Char) := match cs3 with
        | 'e' :: r => parseJsonExp r
        | 'E' :: r => parseJsonExp r
        | _ => some (0, cs3)
      match ex with
      | none => none
      | some (e, cs4) =>
        some (ratOfParts sgn (digitsToNat (ids ++ fds)) fds.length e, cs4)
where
  parseJsonExp (r : List Char) : Option (ℤ × List Char) :=
    let q := match r with
      | '-' :: rr => ((-1 : ℤ), rr)
      | '+' :: rr => ((1 : ℤ), rr)
      | _ => ((1 : ℤ), r)
    let ds := q.2.takeWhile isDigitChar
    if ds.isEmpty then none
    else some (q.1 * (digitsToNat ds : ℤ), q.2.dropWhile isDigitChar)

/-- Parse the body of a JSON string (the opening quote already consumed),
returning the decoded characters and the input after the closing quote.
Handles the JSON escape sequences and rejects unescaped control
characters, as `JSON.parse` does. -/
def parseStrChars : List Char → Option (List Char × List Char)
  | [] => none
  | '"' :: rest => some ([], rest)
  | '\\' :: 'u' :: h1 :: h2 :: h3 :: h4 :: rest =>
    match hexVal h1, hexVal h2, hexVal h3, hexVal h4 with
    | some a, some b, some c, some d =>
      (parseStrChars rest).map fun p =>
        (Char.ofNat (((a * 16 + b) * 16 + c) * 16 + d) :: p.1, p.2)
    | _, _, _, _ => none
  | '\\' :: e :: rest =>
    match (match e with
      | '"' => some '"'
      | '\\' => some '\\'
      | '/' => some '/'
      | 'b' => some (Char.ofNat 8)
      | 'f' => some (Char.ofNat 12)
      | 'n' => some '\n'
      | 'r' => some '\r'
      | 't' => some '\t'
      | _ => none) with
    | some d => (parseStrChars rest).map fun p => (d :: p.1, p.2)
    | none => none
  | c :: rest =>
    if c.toNat < 32 then none
    else (parseStrChars rest).map fun p => (c :: p.1, p.2)

mutual

/-- Recursive-descent JSON value parser (fuel-indexed; the fuel only
bounds nesting and is always supplied large enough). Mirrors the
grammar accepted by `JSON.parse`. -/
def parseJsonValue : ℕ → List Char → Option (JSValue × List Char)
  | 0, _ => none
  | f + 1, cs =>
    match cs.dropWhile isJsonWs with
    | 'n' :: 'u' :: 'l' :: 'l' :: rest => some (.null, rest)
    | 't' :: 'r' :: 'u' :: 'e' :: rest => some (.bool true, rest)
    | 'f' :: 'a' :: 'l' :: 's' :: 'e' :: rest => some (.bool false, rest)
    | '"' :: rest => (parseStrChars rest).map fun p => (.str ⟨p.1⟩, p.2)
    | '[' :: rest =>
      (match rest.dropWhile isJsonWs with
       | ']' :: rest2 => some (.arr [], rest2)
       | cs2 =>
         match parseJsonValue f cs2 with
         | none => none
         | some (v, r) =>
           match parseJsonArrayTail f r with
           | none => none
           | some (vs, r2) => some (.arr (v :: vs), r2))
    | '{' :: rest =>
      (match rest.dropWhile isJsonWs with
       | '}' :: rest2 => some (.obj [], rest2)
       | cs2 =>
         match parseJsonMember f cs2 with
         | none => none
         | some (kv, r) =>
           match parseJsonObjectTail f r with
           | none => none
           | some (kvs, r2) => some (.obj (kv :: kvs), r2))
    | cs' => (parseJsonNumber cs').map fun p => (.num p.1, p.2)

/-- After the first element of a JSON array: a comma-separated tail up to
the closing bracket. -/
def parseJsonArrayTail : ℕ → List Char → Option (List JSValue × List Char)
  | 0, _ => none
  | f + 1, cs =>
    match cs.dropWhile isJsonWs with
    | ']' :: rest => some ([], rest)
    | ',' :: rest =>
      (match parseJsonValue f rest with
       | none => none
       | some (v, r) =>
         match parseJsonArrayTail f r with
         | none => none
         | some (vs, r2) => some (v :: vs, r2))
    | _ => none

/-- One `"key": value` member of a JSON object. -/
def parseJsonMember : ℕ → List Char → Option ((String × JSValue) × List Char)
  | 0, _ => none
  | f + 1, cs =>
    match cs.dropWhile isJsonWs with
    | '"' :: rest =>
      (match parseStrChars rest with
       | none => none
       | some (key, r) =>
         match r.dropWhile isJsonWs with
         | ':' :: r2 =>
           (match parseJsonValue f r2 with
            | none => none
            | some (v, r3) => some ((⟨key⟩, v), r3))
         | _ => none)
    | _ => none

/-- After the first member of a JSON object: a comma-separated tail up to
the closing brace. -/
def parseJsonObjectTail : ℕ → List Char →
    Option (List (String × JSValue) × List Char)
  | 0, _ => none
  | f + 1, cs =>
    match cs.dropWhile isJsonWs with
    | '}' :: rest => some ([], rest)
    | ',' :: rest =>
      (match parseJsonMember f rest with
       | none => none
       | some (kv, r) =>
         match parseJsonObjectTail f r with
         | none => none
         | some (kvs, r2) => some (kv :: kvs, r2))
    | _ => none

end

/-- `JSON.parse` on a string: parse one value and require only trailing
whitespace after it; any syntax error (a thrown `SyntaxError` in
JavaScript) is `none`. -/
def jsonParse (s : String) : Option JSValue :=
  match parseJsonValue (s.length + 1) s.data with
  | some (v, rest) => if (rest.dropWhile isJsonWs).isEmpty then some v else none
  | none => none

/-- Embeds `ensureArray` (src/tools/markets.ts, later revision, lines
266–275): return the value itself when it is an array; when it is a
string, `JSON.parse` it and return the result if that is an array;
otherwise (including parse failures) return the empty array. -/
def ensureArray : JSValue → List JSValue
  | .arr l => l
  | .str s =>
    (match jsonParse s with
     | some (.arr l) => l
     | _ => [])
  | _ => []

example : jsonParse "[\"a\",\"b\"]" = some (.arr [.str "a", .str "b"]) := rfl

example : jsonParse "not json" = none := rfl

example : ensureArray (.str "[\"a\",\"b\"]") = [.str "a", .str "b"] := rfl

/-- A JavaScript number that is not NaN: either a finite value (exact
rational in this model) or one of the two infinities.  NaN itself is
represented as `Option.none` at use sites. -/
inductive JsNum : Type where
  | finite (q : ℚ)
  | posInf
  | negInf
deriving DecidableEq

/-- JavaScript `parseFloat`: skip leading whitespace, accept an optional
sign, then either `Infinity` or the longest decimal-literal prefix
(digits, optional fraction, optional exponent — an `e` not followed by
digits is trailing garbage and ignored); trailing garbage is ignored;
`none` models NaN (no parsable prefix). -/
def parseFloat (s : String) : Option JsNum :=
  let cs := s.data.dropWhile isJsonWs
  let p : ℤ × List Char := match cs with
    | '-' :: r => ((-1 : ℤ), r)
    | '+' :: r => ((1 : ℤ), r)
    | _ => ((1 : ℤ), cs)
  let sgn := p.1
  let cs1 := p.2
  if ("Infinity".data).isPrefixOf cs1 then
    some (if 0 < sgn then .posInf else .negInf)
  else
    let ids := cs1.takeWhile isDigitChar
    let cs2 := cs1.dropWhile isDigitChar
    let fp : List Char × List Char := match cs2 with
      | '.' :: r => (r.takeWhile isDigitChar, r.dropWhile isDigitChar)
      | _ => ([], cs2)
    let fds := fp.1
    let cs3 := fp.2
    if ids.isEmpty && fds.isEmpty then none
    else
      let e : ℤ := match cs3 with
        | 'e' :: r => floatExp r
        | 'E' :: r => floatExp r
        | _ => 0
      some (.finite (ratOfParts sgn (digitsToNat (ids ++ fds)) fds.length e))
where
  /-- Exponent suffix of a `parseFloat` literal; an empty digit run means
  the `e` was not part of the number, contributing exponent `0`. -/
  floatExp (r : List Char) : ℤ :=
    let q := match r with
      | '-' :: rr => ((-1 : ℤ), rr)
      | '+' :: rr => ((1 : ℤ), rr)
      | _ => ((1 : ℤ), r)
    let ds := q.2.takeWhile isDigitChar
    if ds.isEmpty then 0 else q.1 * (digitsToNat ds : ℤ)

example : parseFloat "0" = some (.finite 0) := by decide
example : parseFloat "1" = some (.finite 1) := by decide
example : parseFloat "0.5" = some (.finite (mkRat 1 2)) := by decide
example : parseFloat "abc" = none := rfl
example : parseFloat "2e1" = some (.finite 20) := by decide
example : parseFloat "-Infinity" = some .negInf := rfl

/-- `parseFloat` applied to an arbitrary JavaScript value: JavaScript
first coerces the argument to a string (`String(v)`).  For a string the
coercion is the identity; for a finite number `parseFloat` recovers the
number; `null`, `undefined` and booleans stringify to non-numeric words
(NaN); an array stringifies to its comma-joined elements, so the parsed
numeric prefix comes from its first element (an empty array gives `""`,
NaN). -/
def jsParseFloat : JSValue → Option JsNum
  | .str s => parseFloat s
  | .num q => some (.finite q)
  | .arr (x :: _) =>
    (match x with
     | .str s => parseFloat s
     | .num q => some (.finite q)
     | _ => none)
  | _ => none

/-- A raw market record from the Gamma metadata API, per the `GammaMarket`
interface of src/tools/markets.ts (later revision, lines 244–260).  The
three array-ish fields are declared `string[] | string` upstream and may
also be missing, so they are modelled as arbitrary `JSValue`s
(`.undef` for an absent field).  `description` is a character list so
that prefix/truncation facts can be stated directly. -/
structure GammaMarket where
  conditionId : String
  question : String
  slug : String
  volume : String
  volumeNum : Option ℚ
  liquidityNum : Option ℚ
  endDate : String
  endDateIso : Option String
  description : Option (List Char)
  active : Bool
  closed : Bool
  acceptingOrders : Option Bool
  clobTokenIds : JSValue
  outcomes : JSValue
  outcomePrices : JSValue

/-- One entry of the formatted token list (`tokens` in `MarketInfo`).
`token_id` and `outcome` keep their JavaScript value type: the source
writes `tokenIds[i] || ""` without checking that the element is a
string.  `price` is `none` when `parseFloat` produced NaN. -/
structure FormattedToken where
  token_id : JSValue
  outcome : JSValue
  price : Option JsNum

/-- The stable `MarketInfo` output shape (src/types.ts, later revision). -/
structure MarketInfo where
  condition_id : String
  question : String
  slug : String
  url : Option String
  description : Option (List Char)
  tokens : List FormattedToken
  volume : String
  liquidity : Option ℚ
  end_date : String
  active : Bool
  closed : Bool
  accepting_orders : Option Bool

/-- `v || ""`: the value itself when truthy, else the empty string. -/
def jsOrEmptyStr (v : JSValue) : JSValue :=
  if truthy v then v else .str ""

/-- `s || d` on JavaScript strings. -/
def strOrElse (s : String) (d : String) : String :=
  if s != "" then s else d

/-- Embeds `formatMarket` (src/tools/markets.ts, later revision, lines
355–386): normalize the three array-ish fields with `ensureArray`, fall
back to the fixed `["Yes", "No"]` outcome pair when no outcomes remain,
build one token entry per outcome (`tokenIds[i] || ""`,
`prices[i] ? parseFloat(prices[i]) : 0`), build the canonical URL from
the slug when present, and truncate a truthy description to its first
500 characters. -/
def formatMarket (m : GammaMarket) : MarketInfo :=
  let outcomes := ensureArray m.outcomes
  let prices := ensureArray m.outcomePrices
  let tokenIds := ensureArray m.clobTokenIds
  let outcomeNames := if 0 < outcomes.length then outcomes else [.str "Yes", .str "No"]
  let tokens := (List.range outcomeNames.length).map fun i =>
    ⟨jsOrEmptyStr (tokenIds.getD i .undef),
     outcomeNames.getD i .undef,
     if truthy (prices.getD i .undef) then jsParseFloat (prices.getD i .undef)
     else some (.finite 0)⟩
  ⟨m.conditionId,
   m.question,
   m.slug,
   (if m.slug != "" then some ("https://polymarket.com/event/" ++ m.slug) else none),
   (match m.description with
    | some d => if d.isEmpty then none else some (d.take 500)
    | none => none),
   tokens,
   strOrElse m.volume "0",
   m.liquidityNum,
   (match m.endDateIso with
    | some e => strOrElse e (strOrElse m.endDate "")
    | none => strOrElse m.endDate ""),
   m.active,
   m.closed,
   m.acceptingOrders⟩

/-- The literal path segment the URL-to-slug regex anchors on. -/
def eventSegment : List Char := "polymarket.com/event/".data

/-- The character class `[/?#]` ending a slug match. -/
def isSlugStop (c : Char) : Bool := c == '/' || c == '?' || c == '#'

/-- Scan for the first position where the regex
`(?:polymarket\.com\/event\/)([^/?#]+)` matches, returning the capture
group; like the regex engine, a position where the literal matches but
the following `[^/?#]+` run is empty is skipped and scanning resumes at
the next character. -/
def findEventSlug : List Char → Option (List Char)
  | [] => none
  | c :: rest =>
    if eventSegment.isPrefixOf (c :: rest) then
      let run := ((c :: rest).drop eventSegment.length).takeWhile
        (fun ch => !isSlugStop ch)
      if run.isEmpty then findEventSlug rest else some run
    else findEventSlug rest

/-- Embeds `extractSlugFromUrl` (src/tools/markets.ts, later revision,
lines 350–353): the regex capture when the pattern matches, otherwise
the input with leading slashes stripped (`url.replace(/^\/+/, "")`). -/
def extractSlugFromUrl (url : String) : String :=
  match findEventSlug url.data with
  | some slug => ⟨slug⟩
  | none => ⟨url.data.dropWhile (fun c => c == '/')⟩

example :
    extractSlugFromUrl "https://polymarket.com/event/btc-updown-15m-1770647400?x=1" =
      "btc-updown-15m-1770647400" := rfl

example : extractSlugFromUrl "//btc-updown" = "btc-updown" := rfl

/-- Whether the substring `polymarket.com/event/` occurs anywhere in the
input (the condition under which the regex of `extractSlugFromUrl` can
possibly match). -/
def containsEventSegment : List Char → Bool
  | [] => false
  | c :: rest => eventSegment.isPrefixOf (c :: rest) || containsEventSegment rest

/-- The process configuration record (`Config` in src/config.ts). -/
structure Config where
  privateKey : String
  apiKey : Option String
  apiSecret : Option String
  passphrase : Option String
  funder : String
  chainId : ℕ
  readonly : Bool

/-- The error message thrown by `ensureWriteAccess` in readonly mode. -/
def readonlyErrorMessage : String :=
  "Trading is disabled in readonly mode. Set POLYMARKET_READONLY=false to enable trading."

/-- Embeds `ClobClientWrapper.ensureWriteAccess` (src/client.ts, lines
91–95): throw when the configuration's readonly flag is set, otherwise
return normally. -/
def ensureWriteAccess (cfg : Config) : Except String Unit :=
  if cfg.readonly then .error readonlyErrorMessage else .ok ()

/-- Embeds the tool-name registration sequence of `registerTradingTools`
(src/tools/trading.ts, lines 83–330): the read-only trade-history tool
is always registered first; when `includeWriteTools` is false the
function returns before registering the three mutating tools. -/
def registerTradingTools (includeWriteTools : Bool) : List String :=
  "polymarket_get_trades" ::
    (if includeWriteTools then
      ["polymarket_place_order", "polymarket_place_market_order",
       "polymarket_cancel_order"]
    else [])

/-- Embeds the wiring in `registerAllTools` (src/tools/index.ts):
`registerTradingTools(server, clientWrapper, !isReadonly)`. -/
def tradingToolsRegistered (cfg : Config) : List String :=
  registerTradingTools (!cfg.readonly)

/-- The raw per-token market record used for tick-size lookup
(`RawMarketInfo` in src/tools/trading.ts, lines 38–41; both fields
optional). -/
structure RawMarketInfo where
  minimum_tick_size : Option ℚ
  neg_risk : Option Bool

/-- The pair returned by `getMarketInfoForToken`. -/
structure MarketTokenInfo where
  tickSize : ℚ
  negRisk : Bool
deriving DecidableEq

/-- Embeds `getMarketInfoForToken` (src/tools/trading.ts, lines 60–77),
with the upstream `client.getMarket(tokenId)` call abstracted as its
outcome: on a thrown error return the defaults; on success return
`minimum_tick_size || 0.01` and `neg_risk || false` (so a missing or
zero tick size also falls back to the default; a NaN tick size is not
representable in `ℚ` and never arises). -/
def getMarketInfoForToken (lookup : Except String RawMarketInfo) : MarketTokenInfo :=
  match lookup with
  | .error _ => ⟨mkRat 1 100, false⟩
  | .ok mi =>
    ⟨(match mi.minimum_tick_size with
      | some t => if t = 0 then mkRat 1 100 else t
      | none => mkRat 1 100),
     mi.neg_risk.getD false⟩

/-- The order side enum accepted by the trading schemas. -/
inductive Side : Type where
  | BUY
  | SELL
deriving DecidableEq

/-- Raw (pre-validation) arguments of `polymarket_place_order`. -/
structure PlaceOrderArgs where
  token_id : String
  side : String
  size : String
  price : String

/-- The result of `PlaceOrderSchema.parse`. -/
structure PlaceOrderParsed where
  token_id : String
  side : Side
  size : String
  price : String

/-- The `size` refinement of `PlaceOrderSchema` (src/tools/trading.ts,
lines 10–13): `!isNaN(num) && num > 0` for `num = parseFloat(val)`. -/
def isValidSize (v : String) : Bool :=
  match parseFloat v with
  | some (.finite q) => decide (0 < q)
  | some .posInf => true
  | some .negInf => false
  | none => false

/-- The `price` refinement of `PlaceOrderSchema` (src/tools/trading.ts,
lines 14–17): `!isNaN(num) && num > 0 && num < 1`. -/
def isValidPrice (v : String) : Bool :=
  match parseFloat v with
  | some (.finite q) => decide (0 < q) && decide (q < 1)
  | some .posInf => false
  | some .negInf => false
  | none => false

/-- The `z.enum(["BUY", "SELL"])` check. -/
def parseSide : String → Option Side
  | "BUY" => some Side.BUY
  | "SELL" => some Side.SELL
  | _ => none

/-- Embeds `PlaceOrderSchema.parse` (src/tools/trading.ts, lines 7–18):
`token_id` non-empty, `side` one of BUY/SELL, `size` a positive number,
`price` strictly between 0 and 1.  Any failed check throws (modelled as
`.error` with the schema's message). -/
def parsePlaceOrder (a : PlaceOrderArgs) : Except String PlaceOrderParsed :=
  if a.token_id.length < 1 then
    .error "String must contain at least 1 character(s)"
  else
    match parseSide a.side with
    | none => .error "Invalid enum value"
    | some sd =>
      if !isValidSize a.size then .error "Size must be a positive number"
      else if !isValidPrice a.price then
        .error "Price must be between 0 and 1 (exclusive)"
      else .ok ⟨a.token_id, sd, a.size, a.price⟩

/-- `Except` success test. -/
def exceptIsOk {ε α : Type} : Except ε α → Bool
  | .ok _ => true
  | .error _ => false

/-- The raw response of `postOrder` (`RawOrderResponse` in
src/tools/trading.ts, lines 43–47). -/
structure RawOrderResponse where
  orderID : Option String
  status : Option String
  errorMsg : Option String

/-- An upstream call made by the place-order handler, in the order the
handler performs them. -/
inductive UpstreamCall : Type where
  | getMarket
  | createOrder
  | postOrder
deriving DecidableEq

/-- The outcomes of the three upstream operations the place-order handler
may perform, abstracting the opaque signing client: the per-token
market lookup, the order signing (its product is opaque), and the order
submission. -/
structure PlaceOrderUpstream where
  getMarket : Except String RawMarketInfo
  createOrder : Except String Unit
  postOrder : Except String RawOrderResponse

/-- The uniform result envelope: the text content and the `isError` flag
(absent on success envelopes in the source, i.e. `false`). -/
structure Envelope where
  text : String
  isError : Bool
deriving DecidableEq

/-- `v || d` on an optional string field, as JavaScript evaluates it
(`none` and the empty string are falsy). -/
def optStrOrElse (v : Option String) (d : String) : String :=
  match v with
  | some s => if s != "" then s else d
  | none => d

/-- Rendering of the place-order success payload (the source serializes
it with `JSON.stringify`; the exact rendering is irrelevant to the
claims, which only inspect the error flag, so fields are joined
verbatim). -/
def renderPlaceOrderSuccess (resp : RawOrderResponse) (p : PlaceOrderParsed)
    (info : MarketTokenInfo) : String :=
  "order_id=" ++ (resp.orderID.getD "") ++
  ";status=" ++ optStrOrElse resp.status "unknown" ++
  ";message=" ++ (resp.errorMsg.getD "") ++
  ";token_id=" ++ p.token_id ++
  ";size=" ++ p.size ++
  ";price=" ++ p.price ++
  ";neg_risk=" ++ (if info.negRisk then "true" else "false")

/-- Embeds the `polymarket_place_order` handler (src/tools/trading.ts,
lines 140–209) as a function of the configuration, the raw arguments
and the upstream outcomes, returning the envelope together with the
list of upstream calls performed: `ensureWriteAccess` first, then
schema validation, then the tick-size lookup (whose failure is
swallowed by `getMarketInfoForToken`), then signing and submission; any
thrown error is caught and becomes an error envelope prefixed with
`Error placing order: `. -/
def placeOrderHandler (cfg : Config) (args : PlaceOrderArgs)
    (up : PlaceOrderUpstream) : Envelope × List UpstreamCall :=
  match ensureWriteAccess cfg with
  | .error msg => (⟨"Error placing order: " ++ msg, true⟩, [])
  | .ok _ =>
    match parsePlaceOrder args with
    | .error msg => (⟨"Error placing order: " ++ msg, true⟩, [])
    | .ok p =>
      let info := getMarketInfoForToken up.getMarket
      match up.createOrder with
      | .error msg =>
        (⟨"Error placing order: " ++ msg, true⟩, [.getMarket, .createOrder])
      | .ok _ =>
        match up.postOrder with
        | .error msg =>
          (⟨"Error placing order: " ++ msg, true⟩,
           [.getMarket, .createOrder, .postOrder])
        | .ok resp =>
          (⟨renderPlaceOrderSuccess resp p info, false⟩,
           [.getMarket, .createOrder, .postOrder])

/-- An HTTP response as observed through `fetch` by the single-market
lookup: its status code and status text, plus the market record its
body parses to when consulted. -/
structure HttpResponse where
  status : ℕ
  statusText : String
  jsonBody : GammaMarket

/-- `response.ok` per the Fetch standard: status in the range 200–299. -/
def responseOk (r : HttpResponse) : Bool :=
  decide (200 ≤ r.status) && decide (r.status < 300)

/-- Embeds `fetchGammaMarket` (src/tools/markets.ts, later revision,
lines 307–323): a non-ok response with status 404 yields `null`
(modelled `none`); any other non-ok response throws
`Failed to fetch market: <statusText>`; an ok response yields the
parsed body. -/
def fetchGammaMarket (r : HttpResponse) : Except String (Option GammaMarket) :=
  if !responseOk r then
    if r.status = 404 then .ok none
    else .error ("Failed to fetch market: " ++ r.statusText)
  else .ok (some r.jsonBody)

/-- Rendering of a formatted market for the success envelope (stands for
`JSON.stringify(formatted, null, 2)`; the claims never inspect this
text). -/
def renderMarketInfo (m : MarketInfo) : String :=
  "condition_id=" ++ m.condition_id ++ ";question=" ++ m.question ++
  ";slug=" ++ m.slug ++ ";volume=" ++ m.volume ++ ";end_date=" ++ m.end_date

/-- Embeds the tail of the `polymarket_get_market` handler
(src/tools/markets.ts, later revision, lines 449–490) on the
condition-id path: run the single-market lookup on the given response;
a thrown error is caught into an error envelope with prefix
`Error fetching market: `; a `null` market produces the
`Market not found: <id>` envelope, which the source marks
`isError: true`; a found market is formatted and returned without the
error flag. -/
def getMarketByIdEnvelope (cid : String) (r : HttpResponse) : Envelope :=
  match fetchGammaMarket r with
  | .error msg => ⟨"Error fetching market: " ++ msg, true⟩
  | .ok none => ⟨"Market not found: " ++ cid, true⟩
  | .ok (some m) => ⟨renderMarketInfo (formatMarket m), false⟩

/-- Raw (post-zod) arguments of `polymarket_get_market`; all three
identifier fields are optional strings. -/
structure GetMarketArgs where
  condition_id : Option String
  slug : Option String
  url : Option String

/-- JavaScript truthiness of an optional string. -/
def strTruthy : Option String → Bool
  | some s => s != ""
  | none => false

/-- The slug variable after the handler's
`if (url) slug = extractSlugFromUrl(url)` rewrite
(src/tools/markets.ts, later revision, lines 432–435). -/
def effectiveSlug (args : GetMarketArgs) : Option String :=
  match args.url with
  | some u => if u != "" then some (extractSlugFromUrl u) else args.slug
  | none => args.slug

/-- Which lookup the `polymarket_get_market` handler performs
(src/tools/markets.ts, later revision, lines 437–455): missing
identifiers short-circuit to a validation error; a truthy
`condition_id` selects the by-id lookup; otherwise the (possibly
URL-derived) slug selects the by-slug lookup. -/
inductive LookupChoice : Type where
  | missing
  | byCondition (cid : String)
  | bySlug (slug : String)
deriving DecidableEq

def chooseLookup (args : GetMarketArgs) : LookupChoice :=
  let slug := effectiveSlug args
  if !(strTruthy args.condition_id || strTruthy slug) then .missing
  else if strTruthy args.condition_id then .byCondition (args.condition_id.getD "")
  else .bySlug (slug.getD "")

/-- A raw open order (`RawOpenOrder` in src/tools/account.ts, open-orders
revision, lines 254–263). -/
structure RawOpenOrder where
  id : String
  asset_id : String
  side : String
  price : String
  original_size : String
  size_matched : String
  outcome : Option String
  market : Option String
deriving DecidableEq

/-- A position synthesized from open orders (the fields the open-orders
revision of the handler constructs). -/
structure DerivedPosition where
  token_id : String
  market : String
  outcome : String
  size : String
  avg_price : String
  current_price : String
  pnl : String
deriving DecidableEq

/-- The position synthesized from one open order: size from
`original_size`, both average and current price from the order's own
price, and a zero P&L placeholder; missing market/outcome default to
`"Unknown"`. -/
def positionFromOrder (o : RawOpenOrder) : DerivedPosition :=
  ⟨o.asset_id, optStrOrElse o.market "Unknown", optStrOrElse o.outcome "Unknown",
   o.original_size, o.price, o.price, "0"⟩

/-- One step of the grouping loop (src/tools/account.ts, open-orders
revision, lines 340–355): insert a synthesized position for the order's
token unless the map already holds one; a JavaScript `Map` preserves
insertion order, so it is modelled as the ordered list of its values. -/
def insertPosition (acc : List DerivedPosition) (o : RawOpenOrder) :
    List DerivedPosition :=
  if acc.any (fun p => p.token_id == o.asset_id) then acc
  else acc ++ [positionFromOrder o]

/-- The synthesized positions of the `polymarket_get_positions`
open-orders revision: the grouping loop over the open orders in
upstream order. -/
def derivePositions (orders : List RawOpenOrder) : List DerivedPosition :=
  List.foldl insertPosition [] orders

/-- One formatted open order (`formattedOrders` map, src/tools/account.ts,
open-orders revision, lines 360–367). -/
structure FormattedOrder where
  id : String
  token_id : String
  side : String
  price : String
  size : String
  filled : String
deriving DecidableEq

def formatOpenOrder (o : RawOpenOrder) : FormattedOrder :=
  ⟨o.id, o.asset_id, o.side, o.price, o.original_size, o.size_matched⟩

/-- The `open_orders` list returned alongside the positions: a 1:1 map
over the raw open orders. -/
def formattedOrders (orders : List RawOpenOrder) : List FormattedOrder :=
  orders.map formatOpenOrder

/-- A concrete market record with every optional field absent, used as an
inert response body in concrete instantiations. -/
def sampleGamma : GammaMarket :=
  ⟨"0xc1", "Will it rain?", "will-it-rain", "123", none, none, "2026-01-01",
   none, none, true, false, none, .undef, .undef, .undef⟩

/-- The same market with a short concrete description. -/
def sampleGammaDesc : GammaMarket :=
  ⟨"0xc1", "Will it rain?", "will-it-rain", "123", none, none, "2026-01-01",
   none, some ['h', 'e', 'y'], true, false, none, .undef, .undef, .undef⟩

/-- A concrete writable configuration. -/
def cfg0 : Config := ⟨"k", none, none, none, "f", 137, false⟩

/-- Concrete upstream outcomes where every call would succeed. -/
def upOk : PlaceOrderUpstream :=
  ⟨.ok ⟨none, none⟩, .ok (), .ok ⟨none, none, none⟩⟩

/-- Concrete upstream outcomes where the market-info lookup throws but
signing and submission succeed. -/
def upErrLookup : PlaceOrderUpstream :=
  ⟨.error "boom", .ok (), .ok ⟨none, none, none⟩⟩

/-- A concrete first open order on token `tokA`. -/
def orderA : RawOpenOrder := ⟨"id1", "tokA", "BUY", "0.4", "10", "0", none, none⟩

/-- A concrete second open order on the same token with different price
and size. -/
def orderB : RawOpenOrder := ⟨"id2", "tokA", "SELL", "0.6", "5", "0", none, none⟩

/-- Claim C1: with the readonly flag true, `registerTradingTools` (as
wired by `registerAllTools`) registers only the read-only trade-history
tool and none of the three mutating tools, and `ensureWriteAccess`
throws; with the flag false, `ensureWriteAccess` returns normally. -/
theorem c1_readonly_gating (cfg : Config) :
    (cfg.readonly = true →
      tradingToolsRegistered cfg = ["polymarket_get_trades"] ∧
      "polymarket_place_order" ∉ tradingToolsRegistered cfg ∧
      "polymarket_place_market_order" ∉ tradingToolsRegistered cfg ∧
      "polymarket_cancel_order" ∉ tradingToolsRegistered cfg ∧
      ensureWriteAccess cfg = .error readonlyErrorMessage) ∧
    (cfg.readonly = false → ensureWriteAccess cfg = .ok ()) := by
  constructor
  · intro h
    refine ⟨?_, ?_, ?_, ?_, ?_⟩ <;>
      simp [tradingToolsRegistered, registerTradingTools, ensureWriteAccess, h]
  · intro h
    simp [ensureWriteAccess, h]

/-- Claim C1 witness: the theorem instantiated at concrete readonly and
writable configurations. -/
theorem c1_readonly_gating_witness :
    tradingToolsRegistered ⟨"k", none, none, none, "f", 137, true⟩ =
      ["polymarket_get_trades"] ∧
    ensureWriteAccess ⟨"k", none, none, none, "f", 137, true⟩ =
      .error readonlyErrorMessage ∧
    ensureWriteAccess ⟨"k", none, none, none, "f", 137, false⟩ = .ok () := by
  refine ⟨?_, ?_, ?_⟩
  · exact ((c1_readonly_gating ⟨"k", none, none, none, "f", 137, true⟩).1 rfl).1
  · exact ((c1_readonly_gating ⟨"k", none, none, none, "f", 137, true⟩).1 rfl).2.2.2.2
  · exact (c1_readonly_gating ⟨"k", none, none, none, "f", 137, false⟩).2 rfl

/-- Claim C2 counterexample: on a 404 from the single-market lookup the
handler's "not found" result has the error flag SET (`isError: true` in
the source), refuting the claimed "error flag not set" at the concrete
identifier `0xabc`. -/
theorem c2_not_found_flag_counterexample :
    (getMarketByIdEnvelope "0xabc" ⟨404, "Not Found", sampleGamma⟩).isError = true :=
  rfl

/-- Claim C2 as amended: a 404 from the single-market lookup produces,
without throwing, the `Market not found: <id>` envelope containing the
requested identifier but with the error flag set; a 500 produces an
error envelope containing the upstream status text. -/
theorem c2_not_found_amended (cid : String) (r : HttpResponse) :
    (r.status = 404 →
      getMarketByIdEnvelope cid r = ⟨"Market not found: " ++ cid, true⟩) ∧
    (r.status = 500 →
      getMarketByIdEnvelope cid r =
        ⟨"Error fetching market: " ++ ("Failed to fetch market: " ++ r.statusText),
         true⟩) := by
  constructor
  · intro h
    simp [getMarketByIdEnvelope, fetchGammaMarket, responseOk, h]
  · intro h
    simp [getMarketByIdEnvelope, fetchGammaMarket, responseOk, h]

/-- Claim C2 witness: the amended theorem instantiated at a concrete 404
and a concrete 500 response. -/
theorem c2_not_found_amended_witness :
    getMarketByIdEnvelope "0xabc" ⟨404, "Not Found", sampleGamma⟩ =
      ⟨"Market not found: 0xabc", true⟩ ∧
    getMarketByIdEnvelope "0xabc" ⟨500, "Internal Server Error", sampleGamma⟩ =
      ⟨"Error fetching market: Failed to fetch market: Internal Server Error",
       true⟩ := by
  constructor
  · exact (c2_not_found_amended "0xabc" ⟨404, "Not Found", sampleGamma⟩).1 rfl
  · exact (c2_not_found_amended "0xabc" ⟨500, "Internal Server Error", sampleGamma⟩).2 rfl

/-- Claim C3: `ensureArray` yields `["a","b"]` on the JSON string
`'["a","b"]'` and on the plain array, and `[]` on `null` and on a
non-JSON string; in general it returns an array input unchanged, the
parsed value for a string input that JSON-parses to an array, and `[]`
in every other case. -/
theorem c3_ensure_array_normalizer :
    ensureArray (.str "[\"a\",\"b\"]") = [.str "a", .str "b"] ∧
    ensureArray (.arr [.str "a", .str "b"]) = [.str "a", .str "b"] ∧
    ensureArray .null = [] ∧
    ensureArray (.str "not json") = [] ∧
    (∀ l : List JSValue, ensureArray (.arr l) = l) ∧
    (∀ (s : String) (l : List JSValue), jsonParse s = some (.arr l) →
      ensureArray (.str s) = l) ∧
    (∀ s : String, (∀ l : List JSValue, jsonParse s ≠ some (.arr l)) →
      ensureArray (.str s) = []) ∧
    (∀ v : JSValue, (∀ l : List JSValue, v ≠ .arr l) →
      (∀ s : String, v ≠ .str s) → ensureArray v = []) := by
  refine ⟨rfl, rfl, rfl, rfl, fun l => rfl, ?_, ?_, ?_⟩
  · intro s l h
    simp [ensureArray, h]
  · intro s h
    cases hj : jsonParse s with
    | none => simp [ensureArray, hj]
    | some v =>
      cases v with
      | arr l => exact absurd hj (h l)
      | null => simp [ensureArray, hj]
      | undef => simp [ensureArray, hj]
      | bool b => simp [ensureArray, hj]
      | num q => simp [ensureArray, hj]
      | str s2 => simp [ensureArray, hj]
      | obj fs => simp [ensureArray, hj]
  · intro v h1 h2
    cases v with
    | arr l => exact absurd rfl (h1 l)
    | str s => exact absurd rfl (h2 s)
    | null => rfl
    | undef => rfl
    | bool b => rfl
    | num q => rfl
    | obj fs => rfl

/-- Claim C3 witness: the universally quantified parts of the theorem
instantiated at the concrete strings of the claim. -/
theorem c3_ensure_array_normalizer_witness :
    ensureArray (.str "[\"a\",\"b\"]") = [.str "a", .str "b"] ∧
    ensureArray (.str "not json") = [] := by
  constructor
  · exact c3_ensure_array_normalizer.2.2.2.2.2.1 "[\"a\",\"b\"]"
      [.str "a", .str "b"] rfl
  · exact c3_ensure_array_normalizer.2.2.2.2.2.2.1 "not json" (fun l h => nomatch h)

/-- Helper for claim C5: the regex scan finds nothing when the literal
path segment occurs nowhere in the input. -/
theorem findEventSlug_eq_none_of_no_segment :
    ∀ cs : List Char, containsEventSegment cs = false → findEventSlug cs = none := by
  intro cs
  induction cs with
  | nil => intro _; rfl
  | cons c rest ih =>
    intro h
    unfold containsEventSegment at h
    cases hp : eventSegment.isPrefixOf (c :: rest) with
    | true => rw [hp] at h; simp at h
    | false =>
      rw [hp] at h
      simp only [Bool.false_or] at h
      unfold findEventSlug
      rw [hp]
      simp only [Bool.false_eq_true, if_false]
      exact ih h

/-- Claim C5: the URL
`https://polymarket.com/event/btc-updown-15m-1770647400?x=1` maps to the
slug `btc-updown-15m-1770647400`, and every input not containing the
`polymarket.com/event/` path segment is returned unchanged except that
leading slashes are stripped. -/
theorem c5_extract_slug :
    extractSlugFromUrl "https://polymarket.com/event/btc-updown-15m-1770647400?x=1" =
      "btc-updown-15m-1770647400" ∧
    ∀ url : String, containsEventSegment url.data = false →
      extractSlugFromUrl url = ⟨url.data.dropWhile (fun c => c == '/')⟩ := by
  refine ⟨rfl, fun url h => ?_⟩
  unfold extractSlugFromUrl
  rw [findEventSlug_eq_none_of_no_segment url.data h]

/-- Claim C5 witness: the universal part instantiated at a bare slug with
leading slashes. -/
theorem c5_extract_slug_witness :
    extractSlugFromUrl "//btc-updown" = "btc-updown" := by
  exact c5_extract_slug.2 "//btc-updown" rfl

/-- Claim C4: when the upstream outcomes normalize to the empty list, the
formatted token list is exactly the `Yes`/`No` pair (two entries, in
that order), and an entry whose token-id or price source is out of range
defaults to the empty string and price 0 respectively. -/
theorem c4_default_outcome_pair (m : GammaMarket)
    (h : ensureArray m.outcomes = []) :
    (formatMarket m).tokens.map FormattedToken.outcome = [.str "Yes", .str "No"] ∧
    (formatMarket m).tokens.length = 2 ∧
    (∀ i : ℕ, i < 2 → (ensureArray m.clobTokenIds).length ≤ i →
      ((formatMarket m).tokens.getD i ⟨.undef, .undef, none⟩).token_id = .str "") ∧
    (∀ i : ℕ, i < 2 → (ensureArray m.outcomePrices).length ≤ i →
      ((formatMarket m).tokens.getD i ⟨.undef, .undef, none⟩).price =
        some (.finite 0)) := by
  have ht : (formatMarket m).tokens =
      [⟨jsOrEmptyStr ((ensureArray m.clobTokenIds).getD 0 .undef), .str "Yes",
        if truthy ((ensureArray m.outcomePrices).getD 0 .undef) then
          jsParseFloat ((ensureArray m.outcomePrices).getD 0 .undef)
        else some (.finite 0)⟩,
       ⟨jsOrEmptyStr ((ensureArray m.clobTokenIds).getD 1 .undef), .str "No",
        if truthy ((ensureArray m.outcomePrices).getD 1 .undef) then
          jsParseFloat ((ensureArray m.outcomePrices).getD 1 .undef)
        else some (.finite 0)⟩] := by
    simp [formatMarket, h, List.range_succ]
  refine ⟨by rw [ht]; rfl, by rw [ht]; rfl, ?_, ?_⟩
  · intro i hi hlen
    have hd := List.getD_eq_default (ensureArray m.clobTokenIds) JSValue.undef hlen
    interval_cases i
    · rw [ht]
      simp only [List.getD_cons_zero]
      rw [hd]
      rfl
    · rw [ht]
      simp only [List.getD_cons_succ, List.getD_cons_zero]
      rw [hd]
      rfl
  · intro i hi hlen
    have hd := List.getD_eq_default (ensureArray m.outcomePrices) JSValue.undef hlen
    interval_cases i
    · rw [ht]
      simp only [List.getD_cons_zero]
      rw [hd]
      rfl
    · rw [ht]
      simp only [List.getD_cons_succ, List.getD_cons_zero]
      rw [hd]
      rfl

/-- Claim C4 witness: the theorem instantiated at a concrete market with
no outcomes, token ids, or prices. -/
theorem c4_default_outcome_pair_witness :
    (formatMarket sampleGamma).tokens.map FormattedToken.outcome =
      [.str "Yes", .str "No"] ∧
    ((formatMarket sampleGamma).tokens.getD 0 ⟨.undef, .undef, none⟩).token_id =
      .str "" ∧
    ((formatMarket sampleGamma).tokens.getD 1 ⟨.undef, .undef, none⟩).price =
      some (.finite 0) := by
  have h := c4_default_outcome_pair sampleGamma rfl
  exact ⟨h.1, h.2.2.1 0 (by decide) (by decide), h.2.2.2 1 (by decide) (by decide)⟩

/-- Claim C7: the formatted description is absent exactly when the
upstream description is absent or empty, and otherwise is the upstream
description's 500-character prefix (hence a prefix of length at most
500). -/
theorem c7_description_truncation (m : GammaMarket) :
    ((formatMarket m).description = none ↔
      (m.description = none ∨ m.description = some [])) ∧
    (∀ d : List Char, m.description = some d → d ≠ [] →
      (formatMarket m).description = some (d.take 500) ∧
      (d.take 500).length ≤ 500 ∧ (d.take 500) <+: d) := by
  constructor
  · cases hd : m.description with
    | none => simp [formatMarket, hd]
    | some d =>
      cases d with
      | nil => simp [formatMarket, hd]
      | cons c cs => simp [formatMarket, hd]
  · intro d hd hne
    refine ⟨?_, ?_, List.take_prefix 500 d⟩
    · simp [formatMarket, hd, hne]
    · rw [List.length_take]
      exact min_le_left _ _

/-- Claim C7 witness: the theorem instantiated at a market without a
description and at one with the three-character description `hey`. -/
theorem c7_description_truncation_witness :
    (formatMarket sampleGamma).description = none ∧
    (formatMarket sampleGammaDesc).description = some (['h', 'e', 'y'].take 500) := by
  constructor
  · exact (c7_description_truncation sampleGamma).1.mpr (Or.inl rfl)
  · exact ((c7_description_truncation sampleGammaDesc).2 ['h', 'e', 'y'] rfl
      (by decide)).1

/-- Claim C9: when a truthy `url` is supplied, the slug extracted from it
replaces any supplied `slug` (the handler's outcome does not depend on
the supplied slug); a truthy `condition_id` selects the by-id lookup
regardless of slug and url; and the by-slug lookup is chosen only when
`condition_id` is not truthy. -/
theorem c9_lookup_precedence :
    (∀ (cid sl sl' : Option String) (us : String), us ≠ "" →
      chooseLookup ⟨cid, sl, some us⟩ = chooseLookup ⟨cid, sl', some us⟩) ∧
    (∀ (cid sl u : Option String), strTruthy cid = true →
      chooseLookup ⟨cid, sl, u⟩ = .byCondition (cid.getD "")) ∧
    (∀ (args : GetMarketArgs) (s : String), chooseLookup args = .bySlug s →
      strTruthy args.condition_id = false) := by
  refine ⟨?_, ?_, ?_⟩
  · intro cid sl sl' us hus
    have hb : (us != "") = true := by simpa using hus
    simp [chooseLookup, effectiveSlug, hb]
  · intro cid sl u h
    simp [chooseLookup, h]
  · intro args s h
    cases hc : strTruthy args.condition_id with
    | false => rfl
    | true => simp [chooseLookup, hc] at h

/-- Claim C9 witness: the theorem instantiated at concrete argument
records (a truthy condition id beating a slug and a url; a url-derived
slug making the supplied slug irrelevant). -/
theorem c9_lookup_precedence_witness :
    chooseLookup ⟨some "0xc", some "ignored",
        some "https://polymarket.com/event/abc"⟩ = .byCondition "0xc" ∧
    chooseLookup ⟨none, some "ignored", some "https://polymarket.com/event/abc"⟩ =
      chooseLookup ⟨none, some "other", some "https://polymarket.com/event/abc"⟩ := by
  constructor
  · exact c9_lookup_precedence.2.1 (some "0xc") (some "ignored")
      (some "https://polymarket.com/event/abc") rfl
  · exact c9_lookup_precedence.1 none (some "ignored") (some "other")
      "https://polymarket.com/event/abc" (by decide)

/-- The price strings the claim says the place-order validation must
reject: non-numeric (NaN), or parsing to a number ≤ 0 or ≥ 1 (the two
infinities included). -/
def priceOutOfRange (p : String) : Prop :=
  parseFloat p = none ∨
  (∃ q : ℚ, parseFloat p = some (.finite q) ∧ (q ≤ 0 ∨ 1 ≤ q)) ∨
  parseFloat p = some .posInf ∨ parseFloat p = some .negInf

/-- Claim C6: for every place-order input whose price is non-numeric or
parses to a number ≤ 0 or ≥ 1 (in particular `"0"` and `"1"`), schema
validation rejects the input, the handler returns an error envelope,
and no upstream call is performed. -/
theorem c6_invalid_price_rejected (cfg : Config) (args : PlaceOrderArgs)
    (up : PlaceOrderUpstream) (hro : cfg.readonly = false)
    (hp : priceOutOfRange args.price) :
    exceptIsOk (parsePlaceOrder args) = false ∧
    (placeOrderHandler cfg args up).1.isError = true ∧
    (placeOrderHandler cfg args up).2 = [] := by
  have hvp : isValidPrice args.price = false := by
    rcases hp with h | ⟨q, hq, hle | hle⟩ | h | h
    · simp [isValidPrice, h]
    · have h1 : decide ((0 : ℚ) < q) = false := decide_eq_false (not_lt.mpr hle)
      simp [isValidPrice, hq, h1]
    · have h1 : decide (q < (1 : ℚ)) = false := decide_eq_false (not_lt.mpr hle)
      simp [isValidPrice, hq, h1]
    · simp [isValidPrice, h]
    · simp [isValidPrice, h]
  have hparse : exceptIsOk (parsePlaceOrder args) = false := by
    unfold parsePlaceOrder
    by_cases h1 : args.token_id.length < 1
    · simp [h1, exceptIsOk]
    · cases h2 : parseSide args.side with
      | none => simp [h1, h2, exceptIsOk]
      | some sd =>
        cases h3 : isValidSize args.size with
        | true => simp [h1, h2, h3, hvp, exceptIsOk]
        | false => simp [h1, h2, h3, exceptIsOk]
  cases hres : parsePlaceOrder args with
  | ok p => rw [hres] at hparse; simp [exceptIsOk] at hparse
  | error msg =>
    refine ⟨rfl, ?_, ?_⟩
    · simp [placeOrderHandler, ensureWriteAccess, hro, hres]
    · simp [placeOrderHandler, ensureWriteAccess, hro, hres]

/-- Claim C6 witness: the theorem instantiated at price `"0"` with a
writable configuration and would-succeed upstream outcomes. -/
theorem c6_invalid_price_rejected_witness :
    (placeOrderHandler cfg0 ⟨"tok", "BUY", "1", "0"⟩ upOk).1.isError = true ∧
    (placeOrderHandler cfg0 ⟨"tok", "BUY", "1", "0"⟩ upOk).2 = [] := by
  have h := c6_invalid_price_rejected cfg0 ⟨"tok", "BUY", "1", "0"⟩ upOk rfl
    (Or.inr (Or.inl ⟨0, by decide, Or.inl le_rfl⟩))
  exact ⟨h.2.1, h.2.2⟩

/-- Claim C8: a failed (thrown) per-token market lookup, and a successful
one whose record lacks both optional fields, both yield the defaults
(tick size 0.01, negative-risk false) without propagating the failure;
consequently a failed lookup alone never makes the place-order handler
return an error envelope (whenever validation and the two later calls
succeed, the result is a success envelope). -/
theorem c8_tick_lookup_swallowed :
    (∀ msg : String, getMarketInfoForToken (.error msg) = ⟨mkRat 1 100, false⟩) ∧
    (∀ mi : RawMarketInfo, mi.minimum_tick_size = none → mi.neg_risk = none →
      getMarketInfoForToken (.ok mi) = ⟨mkRat 1 100, false⟩) ∧
    (∀ (cfg : Config) (args : PlaceOrderArgs) (up : PlaceOrderUpstream)
        (msg : String) (resp : RawOrderResponse),
      cfg.readonly = false →
      exceptIsOk (parsePlaceOrder args) = true →
      up.getMarket = .error msg →
      up.createOrder = .ok () →
      up.postOrder = .ok resp →
      (placeOrderHandler cfg args up).1.isError = false) := by
  refine ⟨fun msg => rfl, ?_, ?_⟩
  · intro mi h1 h2
    simp [getMarketInfoForToken, h1, h2]
  · intro cfg args up msg resp hro hok hgm hco hpo
    cases hres : parsePlaceOrder args with
    | error m => rw [hres] at hok; simp [exceptIsOk] at hok
    | ok p => simp [placeOrderHandler, ensureWriteAccess, hro, hres, hco, hpo]

/-- Claim C8 witness: the theorem instantiated at a concrete failed
lookup, well-formed order arguments, and successful later calls. -/
theorem c8_tick_lookup_swallowed_witness :
    getMarketInfoForToken (.error "boom") = ⟨mkRat 1 100, false⟩ ∧
    (placeOrderHandler cfg0 ⟨"tok", "BUY", "1", "0.5"⟩ upErrLookup).1.isError =
      false := by
  constructor
  · exact c8_tick_lookup_swallowed.1 "boom"
  · exact c8_tick_lookup_swallowed.2.2 cfg0 ⟨"tok", "BUY", "1", "0.5"⟩ upErrLookup
      "boom" ⟨none, none, none⟩ rfl (by decide) rfl rfl rfl

/-- Helper for claim C10: the position the grouping fold records for a
token is the one already in the accumulator, or else the one
synthesized from the first order carrying that token. -/
theorem foldl_insertPosition_find? (t : String) :
    ∀ (l : List RawOpenOrder) (acc : List DerivedPosition),
      (List.foldl insertPosition acc l).find? (fun p => p.token_id == t) =
        ((acc.find? (fun p => p.token_id == t)).or
          ((l.find? (fun o => o.asset_id == t)).map positionFromOrder)) := by
  intro l
  induction l with
  | nil => intro acc; simp [Option.or_none]
  | cons o rest ih =>
    intro acc
    have hins_pos : acc.any (fun p => p.token_id == o.asset_id) = true →
        insertPosition acc o = acc := fun h => by
      unfold insertPosition; rw [if_pos h]
    have hins_neg : acc.any (fun p => p.token_id == o.asset_id) = false →
        insertPosition acc o = acc ++ [positionFromOrder o] := fun h => by
      unfold insertPosition; rw [if_neg (by simp [h])]
    rw [List.foldl_cons, ih]
    by_cases ho : o.asset_id = t
    · subst ho
      rw [List.find?_cons_of_pos _ (by simp)]
      cases hany : acc.any (fun p => p.token_id == o.asset_id) with
      | true =>
        rw [hins_pos hany]
        have hsome : (acc.find? (fun p => p.token_id == o.asset_id)).isSome := by
          rw [List.find?_isSome]
          simpa using hany
        obtain ⟨x, hx⟩ := Option.isSome_iff_exists.mp hsome
        rw [hx, Option.or_some, Option.or_some]
      | false =>
        rw [hins_neg hany]
        have hnone : acc.find? (fun p => p.token_id == o.asset_id) = none := by
          rw [List.find?_eq_none]
          intro x hxmem
          have hall := List.any_eq_false.mp hany
          simpa using hall x hxmem
        rw [List.find?_append, hnone, Option.none_or, Option.none_or]
        rw [List.find?_cons_of_pos _ (by simp [positionFromOrder])]
        simp
    · have hpo : (o.asset_id == t) = false := by simpa using ho
      rw [List.find?_cons_of_neg _ (by simp [hpo])]
      cases hany : acc.any (fun p => p.token_id == o.asset_id) with
      | true => rw [hins_pos hany]
      | false =>
        rw [hins_neg hany, List.find?_append]
        have h1 : [positionFromOrder o].find? (fun p => p.token_id == t) = none := by
          simp [positionFromOrder, hpo]
        rw [h1, Option.or_none]

/-- Helper for claim C10: the grouping fold never records two positions
with the same token id. -/
theorem foldl_insertPosition_nodup :
    ∀ (l : List RawOpenOrder) (acc : List DerivedPosition),
      (acc.map DerivedPosition.token_id).Nodup →
      ((List.foldl insertPosition acc l).map DerivedPosition.token_id).Nodup := by
  intro l
  induction l with
  | nil => intro acc h; exact h
  | cons o rest ih =>
    intro acc h
    rw [List.foldl_cons]
    apply ih
    unfold insertPosition
    cases hany : acc.any (fun p => p.token_id == o.asset_id) with
    | true => rw [if_pos rfl]; exact h
    | false =>
      rw [if_neg (by simp)]
      rw [List.map_append]
      refine List.Nodup.append h (by simp) ?_
      intro a ha hmem
      simp only [List.map_cons, List.map_nil, List.mem_singleton] at hmem
      rw [List.mem_map] at ha
      obtain ⟨p, hp, hpt⟩ := ha
      have hcontra : acc.any (fun p => p.token_id == o.asset_id) = true := by
        rw [List.any_eq_true]
        refine ⟨p, hp, ?_⟩
        simp [hpt, hmem, positionFromOrder]
      rw [hany] at hcontra
      exact Bool.noConfusion hcontra

/-- Claim C10: the synthesized positions contain at most one entry per
token id; the entry for a token is exactly the position synthesized from
the first open order carrying that token (so later orders on the same
token do not change it), and a token with no order has no entry; every
open order still appears in the returned `open_orders` list. -/
theorem c10_positions_first_order (orders : List RawOpenOrder) :
    ((derivePositions orders).map DerivedPosition.token_id).Nodup ∧
    (∀ (t : String) (o : RawOpenOrder),
      orders.find? (fun x => x.asset_id == t) = some o →
      (derivePositions orders).find? (fun p => p.token_id == t) =
        some (positionFromOrder o)) ∧
    (∀ t : String, orders.find? (fun x => x.asset_id == t) = none →
      (derivePositions orders).find? (fun p => p.token_id == t) = none) ∧
    (formattedOrders orders).length = orders.length ∧
    (∀ o ∈ orders, formatOpenOrder o ∈ formattedOrders orders) := by
  refine ⟨?_, ?_, ?_, ?_, ?_⟩
  · exact foldl_insertPosition_nodup orders [] (by simp)
  · intro t o h
    rw [derivePositions, foldl_insertPosition_find? t orders []]
    simp [h]
  · intro t h
    rw [derivePositions, foldl_insertPosition_find? t orders []]
    simp [h]
  · simp [formattedOrders]
  · intro o ho
    exact List.mem_map_of_mem formatOpenOrder ho

/-- Claim C10 witness: with two orders on the same token, the synthesized
entry is the one from the first order. -/
theorem c10_positions_first_order_witness :
    (derivePositions [orderA, orderB]).find? (fun p => p.token_id == "tokA") =
      some (positionFromOrder orderA) := by
  exact (c10_positions_first_order [orderA, orderB]).2.1 "tokA" orderA (by decide)

